import Mathlib

/-
Verification of the checkpointing hook (mkusaka/ccheck).

Shallow embedding of the TypeScript sources:
  - src/lib/metadata.ts  (CheckpointMetadata: lock protocol, metadata store)
  - src/lib/git-ops.ts   (GitCheckpointManager: createCheckpoint, restoreCheckpoint,
                          listCheckpoints, hash/metadata validation)
  - src/lib/config.ts    (CheckpointConfig: default patterns, shouldExcludeFile)
  - src/checkpoint-manager.ts (handlePreToolUse / handlePostToolUse)

Modelling conventions:
  - The persisted JSON metadata store is a nested association list mirroring a
    JavaScript object: string keys in insertion order, updates in place,
    new keys appended at the end.
  - ISO-8601 timestamps are modelled as Nat milliseconds; the code orders
    records via new Date(ts).getTime(), an order embedding of the ISO strings
    the code itself generates.
  - File-system and git effects are explicit environment records; fallible
    engine calls are Bool/Option valued fields of those environments.
  - JavaScript truthiness on optional strings (empty string is falsy) is made
    explicit through strTruthy.
-/

namespace Ccheck

/-- JS truthiness of an optional string field: undefined and "" are falsy. -/
def strTruthy : Option String → Bool
  | none => false
  | some s => s ≠ ""

/-- One entry of a MultiEdit edits array (src/types/index.ts, Edit). -/
structure EditItem where
  file_path : Option String := none
  deriving Repr, DecidableEq

/-- Tool input payload (src/types/index.ts, ToolInput). -/
structure ToolInput where
  file_path : Option String := none
  edits : Option (List EditItem) := none
  message : Option String := none
  deriving Repr, DecidableEq

/-- Tool response payload (src/types/index.ts, ToolResponse). -/
structure ToolResponse where
  success : Option Bool := none
  deriving Repr, DecidableEq

/-- Checkpoint status lifecycle (src/types/index.ts). -/
inductive Status where
  | pending
  | success
  | failed
  deriving Repr, DecidableEq

/-- One checkpoint record (src/types/index.ts, CheckpointMetadata). -/
structure CkptMeta where
  timestamp : Nat
  tool_name : String
  tool_input : ToolInput
  session_id : String
  status : Status
  files_affected : List String
  status_updated : Option Nat := none
  tool_response : Option ToolResponse := none
  deriving Repr, DecidableEq

/-- A record together with its hash key (src/types/index.ts, CheckpointData). -/
structure CheckpointData where
  hash : String
  meta : CkptMeta
  deriving Repr, DecidableEq

/-- Per-project map from checkpoint hash to record, as a JS object:
insertion-ordered association list. -/
abbrev ProjectMap := List (String × CkptMeta)

/-- The whole persisted metadata document, keyed by project hash. -/
abbrev MetadataStore := List (String × ProjectMap)

/-- JS object property read: the (unique) binding of the key, if any. -/
def alLookup {β : Type} : List (String × β) → String → Option β
  | [], _ => none
  | p :: m, k => if p.1 == k then some p.2 else alLookup m k

/-- JS object property write: replace the binding in place when the key is
present, append a new binding otherwise (JS objects keep string keys in
insertion order and writes to an existing key keep its position). -/
def upsert {β : Type} : List (String × β) → String → β → List (String × β)
  | [], k, v => [(k, v)]
  | p :: m, k, v => if p.1 == k then (k, v) :: m else p :: upsert m k v

theorem alLookup_upsert_self {β : Type} (m : List (String × β)) (k : String) (v : β) :
    alLookup (upsert m k v) k = some v := by
  induction m with
  | nil => simp [upsert, alLookup]
  | cons p m ih =>
    by_cases hp : p.1 = k
    · simp [upsert, alLookup, hp]
    · simp [upsert, alLookup, hp, ih]

theorem alLookup_upsert_ne {β : Type} (m : List (String × β)) (k k' : String) (v : β)
    (h : k' ≠ k) : alLookup (upsert m k v) k' = alLookup m k' := by
  have hkk : ¬((k : String) == k') = true := by
    simp
    exact fun hh => h hh.symm
  induction m with
  | nil => simp [upsert, alLookup, hkk]
  | cons p m ih =>
    by_cases hp : p.1 = k
    · have hpk' : ¬(p.1 == k') = true := by
        simp only [hp]
        exact hkk
      simp [upsert, alLookup, hp, hkk, hpk']
    · simp only [upsert, show (p.1 == k) = false by simp [hp], Bool.false_eq_true,
        if_false]
      by_cases hp' : p.1 = k'
      · simp [alLookup, hp']
      · simp [alLookup, show (p.1 == k') = false by simp [hp'], ih]

/-- CheckpointMetadata.extractFiles (metadata.ts): collects the target files
from a tool input.  Mirrors the JS truthiness checks: a present-but-empty
file_path is falsy, a present-but-empty edits array is truthy. -/
def extractFiles (toolName : String) (toolInput : ToolInput) : List String :=
  if toolName == "Write" || toolName == "Edit" || toolName == "MultiEdit" then
    if strTruthy toolInput.file_path then
      [toolInput.file_path.getD ""]
    else
      match toolInput.edits with
      | some edits =>
          edits.filterMap (fun e => if strTruthy e.file_path then e.file_path else none)
      | none => []
  else
    []

/-- The fresh record built by CheckpointMetadata.addCheckpoint; `now` stands
for new Date().toISOString(). -/
def mkCheckpointData (toolName : String) (toolInput : ToolInput) (sessionId : String)
    (now : Nat) : CkptMeta :=
  { timestamp := now
    tool_name := toolName
    tool_input := toolInput
    session_id := sessionId
    status := .pending
    files_affected := extractFiles toolName toolInput }

/-- CheckpointMetadata.addCheckpoint (metadata.ts), with the lock assumed
acquired and load/save made explicit as the store argument and result. -/
def addCheckpoint (store : MetadataStore) (projectHash checkpointHash : String)
    (toolName : String) (toolInput : ToolInput) (sessionId : String) (now : Nat) :
    MetadataStore × CkptMeta :=
  let inner := (alLookup store projectHash).getD []
  let checkpointData := mkCheckpointData toolName toolInput sessionId now
  (upsert store projectHash (upsert inner checkpointHash checkpointData), checkpointData)

/-- CheckpointMetadata.getCheckpointMetadata (metadata.ts). -/
def getCheckpointMetadata (store : MetadataStore) (projectHash checkpointHash : String) :
    Option CkptMeta :=
  match alLookup store projectHash with
  | some inner => alLookup inner checkpointHash
  | none => none

/-- The in-place mutation performed by updateCheckpointStatus on an existing
record: set status, stamp status_updated, and record tool_response only when
one was supplied. -/
def applyStatusUpdate (old : CkptMeta) (status : Status) (now : Nat)
    (toolResponse : Option ToolResponse) : CkptMeta :=
  { old with
      status := status
      status_updated := some now
      tool_response :=
        match toolResponse with
        | some r => some r
        | none => old.tool_response }

/-- CheckpointMetadata.updateCheckpointStatus (metadata.ts): mutate and save
only when the record exists, otherwise leave the persisted document alone. -/
def updateCheckpointStatus (store : MetadataStore) (projectHash checkpointHash : String)
    (status : Status) (now : Nat) (toolResponse : Option ToolResponse) : MetadataStore :=
  match alLookup store projectHash with
  | none => store
  | some inner =>
      match alLookup inner checkpointHash with
      | none => store
      | some old =>
          upsert store projectHash
            (upsert inner checkpointHash (applyStatusUpdate old status now toolResponse))

/-- Descending-timestamp comparator used by listProjectCheckpoints and
cleanupOldMetadata: the JS comparator (a, b) => time(b) - time(a) puts the
larger timestamp first; both Array.sort and mergeSort are stable. -/
def tsDescData (a b : CheckpointData) : Bool :=
  b.meta.timestamp ≤ a.meta.timestamp

/-- CheckpointMetadata.listProjectCheckpoints (metadata.ts): the project's
records with their hashes, newest first. -/
def listProjectCheckpoints (store : MetadataStore) (projectHash : String) :
    List CheckpointData :=
  match alLookup store projectHash with
  | none => []
  | some inner =>
      ((inner.map (fun p => CheckpointData.mk p.1 p.2)).mergeSort tsDescData)

/-- Same comparator on raw (hash, record) entries, for cleanupOldMetadata. -/
def tsDescEntry (a b : String × CkptMeta) : Bool :=
  b.2.timestamp ≤ a.2.timestamp

/-- CheckpointMetadata.cleanupOldMetadata (metadata.ts): sort the project's
entries newest first and delete every key past keepCount; nothing is saved
when the project is unknown or already small enough. -/
def cleanupOldMetadata (store : MetadataStore) (projectHash : String)
    (keepCount : Nat) : MetadataStore :=
  match alLookup store projectHash with
  | none => store
  | some inner =>
      let checkpoints := inner.mergeSort tsDescEntry
      if keepCount < checkpoints.length then
        let toDelete := (checkpoints.drop keepCount).map Prod.fst
        upsert store projectHash
          (inner.filter (fun p => !(toDelete.contains p.1)))
      else store

/-- C4: for every project hash, checkpoint hash, tool name, tool input and
session id, addCheckpoint inserts a record keyed by (project, checkpointHash)
whose status is pending, and an immediately following getCheckpointMetadata
with the same keys returns that record, with timestamp, tool_name and
session_id set and files_affected derived from the tool input. -/
theorem addCheckpoint_then_get (store : MetadataStore)
    (projectHash checkpointHash toolName : String) (toolInput : ToolInput)
    (sessionId : String) (now : Nat) :
    (addCheckpoint store projectHash checkpointHash toolName toolInput sessionId now).2.status
        = .pending
    ∧ getCheckpointMetadata
        (addCheckpoint store projectHash checkpointHash toolName toolInput sessionId now).1
        projectHash checkpointHash
      = some (addCheckpoint store projectHash checkpointHash toolName toolInput sessionId now).2
    ∧ (addCheckpoint store projectHash checkpointHash toolName toolInput sessionId now).2.timestamp
        = now
    ∧ (addCheckpoint store projectHash checkpointHash toolName toolInput sessionId now).2.tool_name
        = toolName
    ∧ (addCheckpoint store projectHash checkpointHash toolName toolInput sessionId now).2.session_id
        = sessionId
    ∧ (addCheckpoint store projectHash checkpointHash toolName toolInput sessionId now).2.files_affected
        = extractFiles toolName toolInput := by
  refine ⟨rfl, ?_, rfl, rfl, rfl, rfl⟩
  unfold addCheckpoint getCheckpointMetadata
  simp only [alLookup_upsert_self]

/-- C5: updateCheckpointStatus on an existing (project, checkpointHash) key
sets that record's status, sets status_updated, and sets tool_response when
one is supplied, leaving every other record unchanged; on a missing key it
returns the persisted store entirely unchanged. -/
theorem updateCheckpointStatus_spec (store : MetadataStore)
    (projectHash checkpointHash : String) (status : Status) (now : Nat)
    (toolResponse : Option ToolResponse) :
    (∀ old, getCheckpointMetadata store projectHash checkpointHash = some old →
        getCheckpointMetadata
            (updateCheckpointStatus store projectHash checkpointHash status now toolResponse)
            projectHash checkpointHash
          = some (applyStatusUpdate old status now toolResponse)
        ∧ (applyStatusUpdate old status now toolResponse).status = status
        ∧ (applyStatusUpdate old status now toolResponse).status_updated = some now
        ∧ (∀ r, toolResponse = some r →
            (applyStatusUpdate old status now toolResponse).tool_response = some r)
        ∧ (∀ p h, p ≠ projectHash ∨ h ≠ checkpointHash →
            getCheckpointMetadata
                (updateCheckpointStatus store projectHash checkpointHash status now toolResponse)
                p h
              = getCheckpointMetadata store p h))
    ∧ (getCheckpointMetadata store projectHash checkpointHash = none →
        updateCheckpointStatus store projectHash checkpointHash status now toolResponse
          = store) := by
  constructor
  · intro old hold
    unfold getCheckpointMetadata at hold
    unfold updateCheckpointStatus
    cases hpi : alLookup store projectHash with
    | none => rw [hpi] at hold; exact absurd hold (by simp)
    | some inner =>
      rw [hpi] at hold
      dsimp only at hold ⊢
      rw [hold]
      dsimp only
      refine ⟨?_, rfl, rfl, fun r hr => by simp [applyStatusUpdate, hr], ?_⟩
      · unfold getCheckpointMetadata
        simp only [alLookup_upsert_self]
      · intro p h hne
        unfold getCheckpointMetadata
        by_cases hpp : p = projectHash
        · subst hpp
          rcases hne with hne | hne
          · exact absurd rfl hne
          · simp only [alLookup_upsert_self, hpi]
            exact alLookup_upsert_ne inner checkpointHash h _ hne
        · rw [alLookup_upsert_ne store projectHash p _ hpp]
  · intro hnone
    unfold getCheckpointMetadata at hnone
    unfold updateCheckpointStatus
    cases hpi : alLookup store projectHash with
    | none => rfl
    | some inner =>
      rw [hpi] at hnone
      dsimp only at hnone
      dsimp only
      rw [hnone]

/-- A concrete record used by several witnesses below. -/
def meta0 : CkptMeta :=
  mkCheckpointData "Write" { file_path := some "a.txt" } "s1" 100

/-- A concrete one-project, one-checkpoint store used by witnesses. -/
def store1 : MetadataStore :=
  [("p1", [("aaaa", meta0)])]

/-- C5 witness: updating the existing key of a concrete store yields the
updated record, read back by getCheckpointMetadata. -/
theorem updateCheckpointStatus_spec_witness :
    getCheckpointMetadata
        (updateCheckpointStatus store1 "p1" "aaaa" .success 200 (some { success := some true }))
        "p1" "aaaa"
      = some (applyStatusUpdate meta0 .success 200 (some { success := some true })) :=
  (((updateCheckpointStatus_spec store1 "p1" "aaaa" .success 200
      (some { success := some true })).1 meta0 (by rfl))).1

theorem tsDescEntry_trans (a b c : String × CkptMeta) :
    tsDescEntry a b = true → tsDescEntry b c = true → tsDescEntry a c = true := by
  simp only [tsDescEntry, decide_eq_true_eq]
  omega

theorem tsDescEntry_total (a b : String × CkptMeta) :
    (tsDescEntry a b || tsDescEntry b a) = true := by
  simp only [tsDescEntry, Bool.or_eq_true, decide_eq_true_eq]
  omega

/-- C6: for every project and keepCount, cleanupOldMetadata leaves exactly
min(keepCount, existingCount) records for that project, every record it keeps
was already present, and every discarded record is no newer than any kept
record (the kept records are the keepCount most recent by timestamp). -/
theorem cleanupOldMetadata_spec (store : MetadataStore) (projectHash : String)
    (keepCount : Nat)
    (hnodup : ((((alLookup store projectHash).getD []).map Prod.fst).Nodup)) :
    ((alLookup (cleanupOldMetadata store projectHash keepCount) projectHash).getD []).length
        = min keepCount ((alLookup store projectHash).getD []).length
    ∧ (∀ p, p ∈ (alLookup (cleanupOldMetadata store projectHash keepCount) projectHash).getD []
          → p ∈ (alLookup store projectHash).getD [])
    ∧ (∀ p, p ∈ (alLookup store projectHash).getD []
          → p ∉ (alLookup (cleanupOldMetadata store projectHash keepCount) projectHash).getD []
          → ∀ q, q ∈ (alLookup (cleanupOldMetadata store projectHash keepCount) projectHash).getD []
          → p.2.timestamp ≤ q.2.timestamp) := by
  unfold cleanupOldMetadata
  cases hpi : alLookup store projectHash with
  | none =>
      simp [hpi]
  | some inner =>
      rw [hpi] at hnodup
      dsimp only [Option.getD_some] at hnodup
      dsimp only [Option.getD_some]
      have hperm : (inner.mergeSort tsDescEntry).Perm inner :=
        List.mergeSort_perm inner tsDescEntry
      set sorted := inner.mergeSort tsDescEntry with hsorted
      by_cases hlen : keepCount < sorted.length
      · rw [if_pos hlen]
        set toDelete := (sorted.drop keepCount).map Prod.fst with htd
        set kept := inner.filter (fun p => !(toDelete.contains p.1)) with hkept
        have hlook : alLookup (upsert store projectHash kept) projectHash = some kept :=
          alLookup_upsert_self store projectHash kept
        rw [hlook]
        dsimp only [Option.getD_some]
        -- sorted splits into the kept half and the deleted half
        have hsplit : sorted.take keepCount ++ sorted.drop keepCount = sorted :=
          List.take_append_drop keepCount sorted
        have hnodup' : (sorted.map Prod.fst).Nodup :=
          ((hperm.map Prod.fst).nodup_iff).mpr hnodup
        have hdisj : ∀ p, p ∈ sorted.take keepCount → p.1 ∉ toDelete := by
          intro p hp hmem
          rw [htd] at hmem
          have hkeys : ((sorted.take keepCount).map Prod.fst
              ++ (sorted.drop keepCount).map Prod.fst).Nodup := by
            rw [← List.map_append, hsplit]
            exact hnodup'
          rcases List.nodup_append.mp hkeys with ⟨-, -, hdis⟩
          exact hdis (List.mem_map_of_mem Prod.fst hp) hmem
        have hdropmem : ∀ p, p ∈ sorted.drop keepCount → p.1 ∈ toDelete := by
          intro p hp
          rw [htd]
          exact List.mem_map_of_mem Prod.fst hp
        -- the filter keeps exactly the first keepCount elements of sorted
        have hfiltersorted :
            sorted.filter (fun p => !(toDelete.contains p.1)) = sorted.take keepCount := by
          conv_lhs => rw [← hsplit]
          rw [List.filter_append]
          have h1 : (sorted.take keepCount).filter (fun p => !(toDelete.contains p.1))
              = sorted.take keepCount := by
            apply List.filter_eq_self.mpr
            intro p hp
            simp only [Bool.not_eq_true', List.contains, ← Bool.not_eq_true]
            intro hc
            exact hdisj p hp (List.mem_of_elem_eq_true hc)
          have h2 : (sorted.drop keepCount).filter (fun p => !(toDelete.contains p.1))
              = [] := by
            apply List.filter_eq_nil_iff.mpr
            intro p hp
            simp only [Bool.not_eq_true', List.contains, Bool.not_eq_false]
            exact List.elem_eq_true_of_mem (hdropmem p hp)
          rw [h1, h2, List.append_nil]
        have hkeptlen : kept.length = keepCount := by
          rw [hkept]
          have := (hperm.filter (fun p => !(toDelete.contains p.1))).length_eq
          rw [← this, hfiltersorted, List.length_take]
          omega
        have hinnerlen : inner.length = sorted.length := hperm.length_eq.symm
        refine ⟨?_, ?_, ?_⟩
        · rw [hkeptlen]
          omega
        · intro p hp
          exact List.mem_of_mem_filter hp
        · intro p hpin hpout q hq
          -- p was deleted, so it lives in the dropped half of sorted
          have hpred : ¬(fun p => !(toDelete.contains p.1)) p = true := by
            intro hc
            exact hpout (List.mem_filter.mpr ⟨hpin, hc⟩)
          have hpdel : p.1 ∈ toDelete := by
            by_contra hc
            apply hpred
            simp only [Bool.not_eq_true', List.contains, ← Bool.not_eq_true]
            intro hcc
            exact hc (List.mem_of_elem_eq_true hcc)
          have hpsorted : p ∈ sorted := hperm.mem_iff.mpr hpin
          have hpdrop : p ∈ sorted.drop keepCount := by
            rcases List.mem_append.mp
                (show p ∈ sorted.take keepCount ++ sorted.drop keepCount by
                  rw [hsplit]; exact hpsorted) with h | h
            · exact absurd hpdel (hdisj p h)
            · exact h
          -- q was kept, so it lives in the taken half of sorted
          have hqpred : (!(toDelete.contains q.1)) = true :=
            (List.mem_filter.mp hq).2
          have hqsorted : q ∈ sorted := hperm.mem_iff.mpr (List.mem_of_mem_filter hq)
          have hqtake : q ∈ sorted.take keepCount := by
            rcases List.mem_append.mp
                (show q ∈ sorted.take keepCount ++ sorted.drop keepCount by
                  rw [hsplit]; exact hqsorted) with h | h
            · exact h
            · exfalso
              have := hdropmem q h
              simp only [List.contains, Bool.not_eq_true'] at hqpred
              exact absurd (List.elem_eq_true_of_mem this)
                (by rw [hqpred]; exact Bool.false_ne_true)
          -- sortedness of mergeSort relates the two halves
          have hpw : sorted.Pairwise (fun a b => tsDescEntry a b = true) :=
            List.sorted_mergeSort tsDescEntry_trans tsDescEntry_total inner
          have hpw' : (sorted.take keepCount ++ sorted.drop keepCount).Pairwise
              (fun a b => tsDescEntry a b = true) := by
            rw [hsplit]; exact hpw
          rcases List.pairwise_append.mp hpw' with ⟨-, -, hrel⟩
          have := hrel q hqtake p hpdrop
          simpa [tsDescEntry] using this
      · rw [if_neg hlen]
        rw [hpi]
        dsimp only [Option.getD_some]
        have : inner.length = sorted.length := hperm.length_eq.symm
        refine ⟨by omega, fun p hp => hp, fun p hpin hpout q hq => absurd hpin hpout⟩

/-- A concrete two-record store used by the C6 witness. -/
def store2 : MetadataStore :=
  [("p1", [("aaaa", meta0), ("bbbb", mkCheckpointData "Edit" {} "s2" 300)])]

/-- C6 witness: a concrete two-record project trimmed to keepCount 1 is left
with exactly min 1 2 = 1 record. -/
theorem cleanupOldMetadata_spec_witness :
    ((alLookup (cleanupOldMetadata store2 "p1" 1) "p1").getD []).length
      = min 1 (((alLookup store2 "p1").getD []).length) :=
  (cleanupOldMetadata_spec store2 "p1" 1 (by decide)).1

theorem tsDescData_trans (a b c : CheckpointData) :
    tsDescData a b = true → tsDescData b c = true → tsDescData a c = true := by
  simp only [tsDescData, decide_eq_true_eq]
  omega

theorem tsDescData_total (a b : CheckpointData) :
    (tsDescData a b || tsDescData b a) = true := by
  simp only [tsDescData, Bool.or_eq_true, decide_eq_true_eq]
  omega

/-- JS String.replace with a plain-string needle: remove (here: replace by the
empty string) only the first occurrence. -/
def replaceFirst (s pat : String) : String :=
  match s.splitOn pat with
  | [] => s
  | [_] => s
  | a :: rest => a ++ String.intercalate pat rest

/-- The message clean-up inside GitCheckpointManager.listCheckpoints: strip
the first "CHECKPOINT: " and cut the message at the bracketed timestamp. -/
def cleanMessage (message : String) : String :=
  if (message.splitOn "CHECKPOINT:").length > 1 then
    let m := replaceFirst message "CHECKPOINT: "
    if m.contains '[' then (m.takeWhile (fun c => c ≠ '[')).trim
    else m
  else message

/-- A user-facing checkpoint row (src/types/index.ts, Checkpoint; its nested
metadata object is flattened into the three fields the code copies). -/
structure Checkpoint where
  hash : String
  timestamp : Nat
  message : String
  tool_name : String
  session_id : String
  files_affected : List String
  deriving Repr, DecidableEq

/-- Environment for GitCheckpointManager.listCheckpoints: whether the shadow
repository directory exists, which hashes git rev-parse resolves, and the
subject line git log prints for a resolvable hash (none = non-zero exit). -/
structure GitEnv where
  repoExists : Bool
  resolves : String → Bool
  commitMsg : String → Option String

/-- The Checkpoint row built for one surviving metadata record. -/
def mkDisplay (env : GitEnv) (cp : CheckpointData) : Checkpoint :=
  { hash := cp.hash
    timestamp := cp.meta.timestamp
    message :=
      cleanMessage (match env.commitMsg cp.hash with
        | some out => out.trim
        | none => "Unknown")
    tool_name := cp.meta.tool_name
    session_id := cp.meta.session_id
    files_affected := cp.meta.files_affected }

/-- GitCheckpointManager.listCheckpoints (git-ops.ts): walk the metadata
records newest first and keep exactly those whose hash still resolves to a
commit in the shadow history. -/
def listCheckpoints (env : GitEnv) (store : MetadataStore) (projectHash : String) :
    List Checkpoint :=
  if !env.repoExists then []
  else
    (listProjectCheckpoints store projectHash).filterMap
      (fun cp => if env.resolves cp.hash then some (mkDisplay env cp) else none)

theorem filterMap_guard {α β : Type} (l : List α) (p : α → Bool) (g : α → β) :
    l.filterMap (fun x => if p x then some (g x) else none) = (l.filter p).map g := by
  induction l with
  | nil => rfl
  | cons x l ih =>
    by_cases hx : p x = true
    · simp [List.filterMap_cons, List.filter_cons, hx, ih]
    · simp [List.filterMap_cons, List.filter_cons, hx, ih]

theorem listProjectCheckpoints_sorted (store : MetadataStore) (projectHash : String) :
    (listProjectCheckpoints store projectHash).Pairwise
      (fun a b => tsDescData a b = true) := by
  unfold listProjectCheckpoints
  cases alLookup store projectHash with
  | none => simp
  | some inner =>
      exact List.sorted_mergeSort tsDescData_trans tsDescData_total _

/-- C7: for every project, listCheckpoints returns exactly the recorded
checkpoints whose hashes still resolve in the shadow history, each with its
recorded timestamp, ordered by descending timestamp (newest first). -/
theorem listCheckpoints_spec (env : GitEnv) (store : MetadataStore)
    (projectHash : String) (hrepo : env.repoExists = true) :
    (listCheckpoints env store projectHash).map (fun c => (c.hash, c.timestamp))
        = ((listProjectCheckpoints store projectHash).filter
            (fun cp => env.resolves cp.hash)).map (fun cp => (cp.hash, cp.meta.timestamp))
    ∧ (listCheckpoints env store projectHash).Pairwise
        (fun a b => b.timestamp ≤ a.timestamp) := by
  have hdef : listCheckpoints env store projectHash
      = ((listProjectCheckpoints store projectHash).filter
          (fun cp => env.resolves cp.hash)).map (mkDisplay env) := by
    unfold listCheckpoints
    rw [hrepo]
    simp only [Bool.not_true, Bool.false_eq_true, if_false]
    exact filterMap_guard _ _ _
  constructor
  · rw [hdef, List.map_map]
    rfl
  · rw [hdef]
    have hsorted := listProjectCheckpoints_sorted store projectHash
    have hsub : ((listProjectCheckpoints store projectHash).filter
        (fun cp => env.resolves cp.hash)).Pairwise (fun a b => tsDescData a b = true) :=
      List.Pairwise.sublist (List.filter_sublist _) hsorted
    exact hsub.map (mkDisplay env)
      (fun a b hab => by simpa [tsDescData, mkDisplay] using hab)

/-- C7 witness: a concrete store and an environment resolving every hash. -/
theorem listCheckpoints_spec_witness :
    (listCheckpoints ⟨true, fun _ => true, fun _ => none⟩ store1 "p1").map
        (fun c => (c.hash, c.timestamp))
      = ((listProjectCheckpoints store1 "p1").filter (fun _ => true)).map
          (fun cp => (cp.hash, cp.meta.timestamp)) :=
  (listCheckpoints_spec ⟨true, fun _ => true, fun _ => none⟩ store1 "p1" rfl).1

/-- In a store whose keys are unique (every JS object), a present binding is
what property lookup returns. -/
theorem alLookup_eq_of_mem {β : Type} (m : List (String × β)) (k : String) (v : β)
    (hmem : (k, v) ∈ m) (hnodup : (m.map Prod.fst).Nodup) : alLookup m k = some v := by
  induction m with
  | nil => cases hmem
  | cons p m ih =>
    rcases List.mem_cons.mp hmem with h | h
    · rw [← h]
      simp [alLookup]
    · have hkm : k ∈ m.map Prod.fst := by
        exact List.mem_map.mpr ⟨(k, v), h, rfl⟩
      have hn : p.1 ∉ m.map Prod.fst ∧ (m.map Prod.fst).Nodup := by
        rw [List.map_cons] at hnodup
        exact List.nodup_cons.mp hnodup
      have hne : p.1 ≠ k := fun hk => hn.1 (hk ▸ hkm)
      have := ih h hn.2
      simp [alLookup, hne, this]

/-- The structured event read from standard input (src/types/index.ts,
HookInput); every field is optional in the incoming JSON. -/
structure HookInput where
  tool_name : Option String := none
  tool_input : Option ToolInput := none
  session_id : Option String := none
  tool_response : Option ToolResponse := none
  deriving Repr, DecidableEq

/-- handlePostToolUse (checkpoint-manager.ts): on a checkpoint-worthy tool,
mark the project's most recent checkpoint success or failed according to
tool_response.success !== false, always exiting 0.  `projectHash` stands for
the GitCheckpointManager projectHash of the working directory, `now` for new
Date().toISOString() inside updateCheckpointStatus. -/
def handlePostToolUse (enabled : Bool) (store : MetadataStore) (projectHash : String)
    (input : HookInput) (now : Nat) : MetadataStore × Nat :=
  if !enabled then (store, 0)
  else
    let toolName := input.tool_name.getD ""
    let toolResponse := input.tool_response.getD {}
    if !(toolName == "Write" || toolName == "Edit" || toolName == "MultiEdit") then
      (store, 0)
    else
      match listProjectCheckpoints store projectHash with
      | [] => (store, 0)
      | latestCheckpoint :: _ =>
          let status :=
            if toolResponse.success != some false then Status.success else Status.failed
          (updateCheckpointStatus store projectHash latestCheckpoint.hash status now
            (some toolResponse), 0)

/-- C10: for every after-mutation event on a checkpoint-worthy tool with at
least one recorded checkpoint, handlePostToolUse writes failed exactly when
tool_response.success is literally false (omitted or any other value gives
success), and the update targets the single most recent checkpoint of the
project — the head of the newest-first listing, whose timestamp bounds every
other checkpoint — leaving every other record unchanged and exiting 0. -/
theorem handlePostToolUse_spec (store : MetadataStore) (projectHash : String)
    (input : HookInput) (now : Nat) (latest : CheckpointData) (rest : List CheckpointData)
    (hworthy : input.tool_name.getD "" ∈ (["Write", "Edit", "MultiEdit"] : List String))
    (hcps : listProjectCheckpoints store projectHash = latest :: rest)
    (hnodup : ((((alLookup store projectHash).getD []).map Prod.fst).Nodup)) :
    (handlePostToolUse true store projectHash input now).2 = 0
    ∧ ((if (input.tool_response.getD {}).success != some false then Status.success
          else Status.failed) = Status.failed
        ↔ (input.tool_response.getD {}).success = some false)
    ∧ (∀ cp ∈ rest, cp.meta.timestamp ≤ latest.meta.timestamp)
    ∧ getCheckpointMetadata (handlePostToolUse true store projectHash input now).1
          projectHash latest.hash
        = some (applyStatusUpdate latest.meta
            (if (input.tool_response.getD {}).success != some false then Status.success
              else Status.failed)
            now (some (input.tool_response.getD {})))
    ∧ (∀ h, h ≠ latest.hash →
        getCheckpointMetadata (handlePostToolUse true store projectHash input now).1
            projectHash h
          = getCheckpointMetadata store projectHash h) := by
  -- resolve the store lookups behind the newest-first listing
  have hinner : ∃ inner, alLookup store projectHash = some inner
      ∧ (inner.map (fun p => CheckpointData.mk p.1 p.2)).mergeSort tsDescData
          = latest :: rest := by
    unfold listProjectCheckpoints at hcps
    cases hpi : alLookup store projectHash with
    | none => rw [hpi] at hcps; exact absurd hcps (by simp)
    | some inner =>
        rw [hpi] at hcps
        exact ⟨inner, rfl, hcps⟩
  rcases hinner with ⟨inner, hpi, hsort⟩
  rw [hpi] at hnodup
  dsimp only [Option.getD_some] at hnodup
  have hlatestmem : (latest.hash, latest.meta) ∈ inner := by
    have h1 : latest ∈ (inner.map (fun p => CheckpointData.mk p.1 p.2)).mergeSort tsDescData := by
      rw [hsort]; exact List.mem_cons_self _ _
    have h2 : latest ∈ inner.map (fun p => CheckpointData.mk p.1 p.2) :=
      (List.mergeSort_perm _ _).mem_iff.mp h1
    rcases List.mem_map.mp h2 with ⟨pr, hpr, hmk⟩
    have : pr = (latest.hash, latest.meta) := by
      cases pr
      cases hmk
      rfl
    exact this ▸ hpr
  have hlook : alLookup inner latest.hash = some latest.meta :=
    alLookup_eq_of_mem inner latest.hash latest.meta hlatestmem hnodup
  -- evaluate the handler on this event
  have hname : (!(input.tool_name.getD "" == "Write"
      || input.tool_name.getD "" == "Edit"
      || input.tool_name.getD "" == "MultiEdit")) = false := by
    simp only [List.mem_cons, List.not_mem_nil, or_false] at hworthy
    rcases hworthy with h | h | h <;> simp [h]
  have hout : handlePostToolUse true store projectHash input now
      = (upsert store projectHash (upsert inner latest.hash
          (applyStatusUpdate latest.meta
            (if (input.tool_response.getD {}).success != some false then Status.success
              else Status.failed)
            now (some (input.tool_response.getD {})))), 0) := by
    unfold handlePostToolUse
    simp only [Bool.not_true, Bool.false_eq_true, if_false, hname, hcps]
    unfold updateCheckpointStatus
    simp only [hpi, hlook]
  refine ⟨by rw [hout], ?_, ?_, ?_, ?_⟩
  · constructor
    · intro h
      by_contra hc
      rw [if_pos (by simpa using hc)] at h
      exact Status.noConfusion h
    · intro h
      rw [if_neg (by simp [h])]
  · intro cp hcp
    have hpw := listProjectCheckpoints_sorted store projectHash
    rw [hcps] at hpw
    rcases List.pairwise_cons.mp hpw with ⟨hhead, -⟩
    have := hhead cp hcp
    simpa [tsDescData] using this
  · rw [hout]
    unfold getCheckpointMetadata
    simp only [alLookup_upsert_self]
  · intro h hne
    rw [hout]
    unfold getCheckpointMetadata
    simp only [alLookup_upsert_self, hpi]
    exact alLookup_upsert_ne inner latest.hash h _ hne

/-- C10 witness: a concrete event whose tool_response omits success marks the
single checkpoint of store1 as success. -/
theorem handlePostToolUse_spec_witness :
    getCheckpointMetadata
        (handlePostToolUse true store1 "p1"
          { tool_name := some "Edit", tool_response := some {} } 500).1 "p1" "aaaa"
      = some (applyStatusUpdate meta0 Status.success 500 (some {})) :=
  ((handlePostToolUse_spec store1 "p1"
      { tool_name := some "Edit", tool_response := some {} } 500
      (CheckpointData.mk "aaaa" meta0) [] (by decide)
      (by unfold listProjectCheckpoints store1
          simp [alLookup, List.mergeSort])
      (by decide)).2.2.2).1

/-- Outcome of one acquireLock call: whether the lock was obtained (false =
the code threw its lock-timeout error), the clock value when the call
finished, and the times at which it deleted the lock marker. -/
structure LockOutcome where
  ok : Bool
  time : Nat
  unlinks : List Nat
  deriving Repr, DecidableEq

/-- CheckpointMetadata.acquireLock (metadata.ts) against a static competitor:
the marker, when present, keeps a fixed mtime and is never released by its
owner.  Time is milliseconds; each contended poll sleeps waitInterval = 50,
the bounded wait is maxWaitTime = 5000, the staleness threshold 10000.
JS computes Date.now() - stats.mtimeMs, negative for a future mtime; Nat
truncated subtraction agrees (both compare below the threshold).  Fuel only
bounds the recursion and is never exhausted in the proofs. -/
def acquireLockAux : Nat → Nat → Nat → Option Nat → LockOutcome
  | 0, _, now, _ => ⟨false, now, []⟩
  | fuel + 1, start, now, lock =>
      match lock with
      | none => ⟨true, now, []⟩
      | some mtime =>
          if 5000 < now - start then
            if 10000 < now - mtime then
              let r := acquireLockAux fuel start now none
              ⟨r.ok, r.time, now :: r.unlinks⟩
            else ⟨false, now, []⟩
          else acquireLockAux fuel start (now + 50) (some mtime)

/-- acquireLock with its default 5000 ms bounded wait, started at `start`. -/
def acquireLock (start : Nat) (lock : Option Nat) : LockOutcome :=
  acquireLockAux 200 start start lock

theorem acquireLockAux_held (start mtime : Nat) :
    ∀ fuel k, k ≤ 101 → 103 - k ≤ fuel →
      acquireLockAux fuel start (start + 50 * k) (some mtime)
        = if 10000 < start + 5050 - mtime
          then ⟨true, start + 5050, [start + 5050]⟩
          else ⟨false, start + 5050, []⟩ := by
  intro fuel
  induction fuel with
  | zero => intro k hk hfuel; omega
  | succ fuel ih =>
      intro k hk hfuel
      by_cases hdeadline : k = 101
      · subst hdeadline
        rw [show (50 : Nat) * 101 = 5050 by norm_num]
        simp only [acquireLockAux]
        rw [if_pos (show 5000 < start + 5050 - start by omega)]
        by_cases hstale : 10000 < start + 5050 - mtime
        · rw [if_pos hstale, if_pos hstale]
          cases fuel with
          | zero => omega
          | succ f => simp only [acquireLockAux]
        · rw [if_neg hstale, if_neg hstale]
      · have hk' : k < 101 := by omega
        simp only [acquireLockAux]
        rw [if_neg (by omega)]
        have hstep : start + 50 * k + 50 = start + 50 * (k + 1) := by omega
        rw [hstep]
        exact ih (k + 1) (by omega) (by omega)

/-- C3: during lock acquisition against a marker that stays present with a
fixed mtime, the marker is deleted exactly when its age at the 5-second
deadline exceeds the 10-second staleness threshold, and then only at the
deadline — never before the bounded wait (about 5 s of 50 ms polls) elapses —
after which acquisition retries and succeeds; a marker still fresh at the
deadline is never deleted and the call fails with the lock-timeout error. -/
theorem acquireLock_staleness (start mtime : Nat) :
    (10000 < start + 5050 - mtime →
        acquireLock start (some mtime) = ⟨true, start + 5050, [start + 5050]⟩)
    ∧ (start + 5050 - mtime ≤ 10000 →
        acquireLock start (some mtime) = ⟨false, start + 5050, []⟩) := by
  have hbase : acquireLock start (some mtime)
      = if 10000 < start + 5050 - mtime
        then ⟨true, start + 5050, [start + 5050]⟩
        else ⟨false, start + 5050, []⟩ := by
    have := acquireLockAux_held start mtime 200 0 (by omega) (by omega)
    simpa [acquireLock] using this
  constructor
  · intro h
    rw [hbase, if_pos h]
  · intro h
    rw [hbase, if_neg (by omega)]

/-- C3 witness: a marker 25 s old at the deadline is reclaimed at the
deadline and the lock is then acquired. -/
theorem acquireLock_staleness_witness :
    acquireLock 20000 (some 0) = ⟨true, 25050, [25050]⟩ :=
  (acquireLock_staleness 20000 0).1 (by omega)

/-- A git invocation issued by restoreCheckpoint in the shadow worktree. -/
inductive GitCmd where
  | checkout (arg : String)
  deriving Repr, DecidableEq

/-- Environment for restoreCheckpoint: whether the shadow repository directory
exists, whether git checkout of a given argument succeeds, and whether the
file sync back to the project tree completes without throwing. -/
structure RestoreEnv where
  repoExists : Bool
  checkoutOk : String → Bool
  syncOk : Bool

/-- Case-insensitive hex digit, the character class of the validation regex
with its i flag: the code tests checkpointHash against
a 1..40 repetition of [a-f0-9] under the case-insensitive flag. -/
def isHexCI (c : Char) : Bool :=
  ('0' ≤ c && c ≤ '9') || ('a' ≤ c && c ≤ 'f') || ('A' ≤ c && c ≤ 'F')

/-- GitCheckpointManager.validateCheckpointHash (git-ops.ts): falsy-empty
guard, then the anchored regex of 1 to 40 case-insensitive hex characters. -/
def validateCheckpointHash (checkpointHash : String) : Bool :=
  if checkpointHash = "" then false
  else
    (1 ≤ checkpointHash.length && checkpointHash.length ≤ 40)
      && checkpointHash.data.all isHexCI

/-- GitCheckpointManager.restoreCheckpoint (git-ops.ts), returning its Bool
result together with the git commands it issued in the shadow worktree. -/
def restoreCheckpoint (env : RestoreEnv) (checkpointHash : String) (dryRun : Bool) :
    Bool × List GitCmd :=
  if !env.repoExists then (false, [])
  else if !validateCheckpointHash checkpointHash then (false, [])
  else if !env.checkoutOk checkpointHash then (false, [GitCmd.checkout checkpointHash])
  else if dryRun then (true, [GitCmd.checkout checkpointHash])
  else if env.syncOk then
    (true, [GitCmd.checkout checkpointHash, GitCmd.checkout "main"])
  else (false, [GitCmd.checkout checkpointHash])

/-- Lowercase-hex character class [a-f0-9], the literal class named by the
claim (without the regex's case-insensitive flag). -/
def lowerHexChar (c : Char) : Bool :=
  ('0' ≤ c && c ≤ '9') || ('a' ≤ c && c ≤ 'f')

/-- C1 counterexample: the hash "A" contains a character outside [a-f0-9] and
is within 40 characters, yet restoreCheckpoint accepts it (the validation
regex carries the case-insensitive flag) and runs git checkout with it — in
an environment where the checkout succeeds the call even returns true. -/
theorem restoreCheckpoint_uppercase_counterexample :
    ("A".data.all lowerHexChar) = false
    ∧ "A".length ≤ 40
    ∧ restoreCheckpoint ⟨true, fun _ => true, true⟩ "A" false
        = (true, [GitCmd.checkout "A", GitCmd.checkout "main"]) := by
  refine ⟨by decide, by decide, by rfl⟩

/-- C1 (amended): restoreCheckpoint rejects any checkpoint-hash argument
containing a character outside case-insensitive hex [a-fA-F0-9] or exceeding
40 characters: for every such string it returns false without issuing any
git command. -/
theorem restoreCheckpoint_rejects_invalid (env : RestoreEnv) (checkpointHash : String)
    (dryRun : Bool)
    (h : checkpointHash.data.any (fun c => !(isHexCI c)) = true
        ∨ 40 < checkpointHash.length) :
    restoreCheckpoint env checkpointHash dryRun = (false, []) := by
  have hv : validateCheckpointHash checkpointHash = false := by
    unfold validateCheckpointHash
    rcases h with h | h
    · split
      · rfl
      · have hall : checkpointHash.data.all isHexCI = false := by
          rcases List.any_eq_true.mp h with ⟨c, hc, hcx⟩
          apply Bool.eq_false_iff.mpr
          intro hcall
          have := List.all_eq_true.mp hcall c hc
          simp [this] at hcx
        simp [hall]
    · split
      · rfl
      · have hlen : decide (checkpointHash.length ≤ 40) = false := by
          simp
          omega
        simp [hlen]
  unfold restoreCheckpoint
  by_cases hr : env.repoExists
  · simp [hr, hv]
  · simp [hr]

/-- C1 witness for the amended theorem: "zz" is rejected with no git run. -/
theorem restoreCheckpoint_rejects_invalid_witness :
    restoreCheckpoint ⟨true, fun _ => true, true⟩ "zz" false = (false, []) :=
  restoreCheckpoint_rejects_invalid ⟨true, fun _ => true, true⟩ "zz" false
    (Or.inl (by decide))

/-- node path.basename, approximated for the slash-separated relative paths
the hook receives: the last nonempty path segment. -/
def basename (p : String) : String :=
  match ((p.splitOn "/").filter (fun s => s ≠ "")).getLast? with
  | some b => b
  | none => p

/-- The checkpoint message composed by handlePreToolUse
(checkpoint-manager.ts, lines 59-87). -/
def buildMessage (toolName : String) (toolInput : ToolInput) : String :=
  if toolName == "Write" then
    if strTruthy toolInput.file_path then
      "Before creating " ++ basename (toolInput.file_path.getD "")
    else "Before creating new file"
  else if toolName == "Edit" then
    if strTruthy toolInput.file_path then
      "Before editing " ++ basename (toolInput.file_path.getD "")
    else "Before editing file"
  else if toolName == "MultiEdit" then
    if strTruthy toolInput.file_path then
      "Before " ++ toString (toolInput.edits.getD []).length ++ " edits to "
        ++ basename (toolInput.file_path.getD "")
    else "Before multi-edit operation"
  else if toolName == "Manual" then
    if strTruthy toolInput.message then toolInput.message.getD ""
    else "Manual checkpoint"
  else "Before " ++ toolName ++ " operation"

/-- The one exception handlePreToolUse can propagate: the metadata lock
timeout thrown inside addCheckpoint. -/
inductive HookError where
  | lockTimeout
  deriving Repr, DecidableEq

/-- Environment for handlePreToolUse: the loaded config's enabled flag, the
project hash, config.shouldExcludeFile composed with path.resolve, the two
repository-initialization probes, the outcome of
GitCheckpointManager.createCheckpoint for a given message, and whether the
metadata lock can be acquired within its bounded wait. -/
structure PreEnv where
  enabled : Bool
  projectHash : String
  excluded : String → Bool
  isGitRepo : Bool
  initOk : Bool
  createResult : String → Option String
  lockOk : Bool

/-- handlePreToolUse (checkpoint-manager.ts): checkpoint-worthy tools get a
checkpoint before the mutation; every failure short of the lock-timeout
exception degrades to exit code 0 with the store untouched. -/
def handlePreToolUse (env : PreEnv) (store : MetadataStore) (input : HookInput)
    (now : Nat) : Except HookError (MetadataStore × Nat) :=
  if !env.enabled then .ok (store, 0)
  else
    let toolName := input.tool_name.getD ""
    let toolInput := input.tool_input.getD {}
    let sessionId := input.session_id.getD ""
    if !(toolName == "Write" || toolName == "Edit" || toolName == "MultiEdit"
        || toolName == "Manual") then .ok (store, 0)
    else if strTruthy toolInput.file_path
        && env.excluded (toolInput.file_path.getD "") then .ok (store, 0)
    else if !env.isGitRepo && !env.initOk then .ok (store, 0)
    else
      match env.createResult (buildMessage toolName toolInput) with
      | some checkpointHash =>
          if env.lockOk then
            .ok ((addCheckpoint store env.projectHash checkpointHash toolName toolInput
              sessionId now).1, 0)
          else .error .lockTimeout
      | none => .ok (store, 0)

/-- C2: for every before-mutation event with a checkpoint-worthy tool name,
handlePreToolUse still returns exit code 0 when checkpoint creation fails or
when the project repository cannot be initialized; such a checkpoint failure
never produces a non-zero return from the handler. -/
theorem handlePreToolUse_degrades (env : PreEnv) (store : MetadataStore)
    (input : HookInput) (now : Nat)
    (hworthy : input.tool_name.getD ""
        ∈ (["Write", "Edit", "MultiEdit", "Manual"] : List String))
    (h : (∀ msg, env.createResult msg = none)
        ∨ (env.isGitRepo = false ∧ env.initOk = false)) :
    handlePreToolUse env store input now = .ok (store, 0) := by
  clear hworthy
  unfold handlePreToolUse
  rcases h with h | h
  · simp only [h]
    repeat first | rfl | split
  · simp only [h.1, h.2, Bool.not_false, Bool.and_self, if_true]
    repeat first | rfl | split

/-- C2 witness: a Write event in an environment whose checkpoint creation
always fails exits 0 with the store unchanged. -/
theorem handlePreToolUse_degrades_witness :
    handlePreToolUse ⟨true, "p1", fun _ => false, true, true, fun _ => none, true⟩
        [] { tool_name := some "Write" } 0 = .ok ([], 0) :=
  handlePreToolUse_degrades ⟨true, "p1", fun _ => false, true, true, fun _ => none, true⟩
    [] { tool_name := some "Write" } 0 (by decide) (Or.inl (fun _ => rfl))

/-- A JSON value, for the metadata payload handed to createCheckpoint. -/
inductive Json where
  | nul
  | bool (b : Bool)
  | num (n : Int)
  | str (s : String)
  | arr (elems : List Json)
  | obj (fields : List (String × Json))

/-- Lowercase hex digit, as produced by JSON.stringify control escapes. -/
def hexDigit (n : Nat) : Char :=
  if n < 10 then Char.ofNat ('0'.toNat + n) else Char.ofNat ('a'.toNat + n - 10)

def hex4 (n : Nat) : String :=
  String.mk [hexDigit (n / 4096 % 16), hexDigit (n / 256 % 16),
    hexDigit (n / 16 % 16), hexDigit (n % 16)]

/-- JSON.stringify escaping of one character inside a string literal. -/
def escapeChar (c : Char) : String :=
  if c = '"' then "\\\""
  else if c = '\\' then "\\\\"
  else if c = '\x08' then "\\b"
  else if c = '\x0c' then "\\f"
  else if c = '\n' then "\\n"
  else if c = '\r' then "\\r"
  else if c = '\t' then "\\t"
  else if c.toNat < 32 then "\\u" ++ hex4 c.toNat
  else String.singleton c

def escapeString (s : String) : String :=
  String.join (s.data.map escapeChar)

def jsonQuote (s : String) : String :=
  "\"" ++ escapeString s ++ "\""

mutual

/-- JSON.stringify with no spacing, as used by validateMetadataSize. -/
def Json.stringify : Json → String
  | .nul => "null"
  | .bool b => if b then "true" else "false"
  | .num n => toString n
  | .str s => jsonQuote s
  | .arr elems => "[" ++ stringifyElems elems ++ "]"
  | .obj fields => "\x7b" ++ stringifyFields fields ++ "\x7d"

def stringifyElems : List Json → String
  | [] => ""
  | [x] => Json.stringify x
  | x :: xs => Json.stringify x ++ "," ++ stringifyElems xs

def stringifyFields : List (String × Json) → String
  | [] => ""
  | [(k, v)] => jsonQuote k ++ ":" ++ Json.stringify v
  | (k, v) :: fs => jsonQuote k ++ ":" ++ Json.stringify v ++ "," ++ stringifyFields fs

end

/-- Buffer.byteLength(s, utf8). -/
def utf8Len (s : String) : Nat :=
  s.data.foldl (fun n c => n + c.utf8Size) 0

def jsonByteSize (metadata : Json) : Nat :=
  utf8Len (Json.stringify metadata)

/-- GitCheckpointManager.validateMetadataSize (git-ops.ts): the serialized
payload must stay within 1 MiB. -/
def validateMetadataSize (metadata : Json) : Bool :=
  jsonByteSize metadata ≤ 1024 * 1024

/-- JS truthiness of a JSON value (null, false, 0 and "" are falsy). -/
def Json.truthy : Json → Bool
  | .nul => false
  | .bool b => b
  | .num n => n ≠ 0
  | .str s => s ≠ ""
  | .arr _ => true
  | .obj _ => true

def getField (metadata : Json) (k : String) : Option Json :=
  match metadata with
  | .obj fields => alLookup fields k
  | _ => none

/-- metadata.k with a falsy-default empty string: metadata.k or the empty
string when the field is missing or falsy. -/
def fieldOr (metadata : Json) (k : String) : Json :=
  match getField metadata k with
  | some v => if v.truthy then v else .str ""
  | none => .str ""

/-- The files field read as an array; every call site passes an array (the
orchestrator builds files as a list), so a truthy non-array files field —
which in JS would fail at .slice — is out of the model. -/
def fieldFiles (metadata : Json) : List Json :=
  match getField metadata "files" with
  | some (.arr elems) => elems
  | _ => []

/-- The oversized-metadata truncation inside createCheckpoint (git-ops.ts):
keep tool_name, session_id and the first 10 entries of files. -/
def truncateMetadata (metadata : Json) : Json :=
  .obj [("tool_name", fieldOr metadata "tool_name"),
        ("session_id", fieldOr metadata "session_id"),
        ("files", .arr ((fieldFiles metadata).take 10))]

/-- Environment for createCheckpoint: initCheckpointRepo outcome, whether the
file sync into the worktree throws, whether the commit returns zero, and the
rev-parse HEAD output (none = non-zero exit). -/
structure CreateEnv where
  initOk : Bool
  syncOk : Bool
  commitOk : Bool
  hashResult : Option String

/-- What one createCheckpoint call produced: its return value, the metadata
attached as the git note, whether the commit was attempted at all, and the
commit message used. -/
structure CreateOutcome where
  result : Option String
  note : Option Json
  commitAttempted : Bool
  commitMessage : Option String

/-- GitCheckpointManager.createCheckpoint (git-ops.ts): `now` stands for new
Date().toISOString() in the commit message. -/
def createCheckpoint (env : CreateEnv) (message : String) (metadata : Json)
    (now : Nat) : CreateOutcome :=
  if !env.initOk then ⟨none, none, false, none⟩
  else
    let metadata :=
      if !validateMetadataSize metadata then truncateMetadata metadata else metadata
    if !env.syncOk then ⟨none, none, false, none⟩
    else
      let commitMessage := "CHECKPOINT: " ++ message ++ " [" ++ toString now ++ "]"
      if !env.commitOk then ⟨none, none, true, some commitMessage⟩
      else
        match env.hashResult with
        | none => ⟨none, none, true, some commitMessage⟩
        | some commitHash => ⟨some commitHash, some metadata, true, some commitMessage⟩

/-- C8: when the shadow repository initializes, the sync does not throw, and
the commit and hash retrieval succeed, a metadata payload serializing over
1 MiB does not abort createCheckpoint: the commit still happens and the
attached annotation is the truncated minimal subset; a payload at or under
the cap is attached unmodified. -/
theorem createCheckpoint_size_guard (env : CreateEnv) (message : String)
    (metadata : Json) (now : Nat) (commitHash : String)
    (h1 : env.initOk = true) (h2 : env.syncOk = true) (h3 : env.commitOk = true)
    (h4 : env.hashResult = some commitHash) :
    (1024 * 1024 < jsonByteSize metadata →
        createCheckpoint env message metadata now
          = ⟨some commitHash, some (truncateMetadata metadata), true,
              some ("CHECKPOINT: " ++ message ++ " [" ++ toString now ++ "]")⟩)
    ∧ (jsonByteSize metadata ≤ 1024 * 1024 →
        createCheckpoint env message metadata now
          = ⟨some commitHash, some metadata, true,
              some ("CHECKPOINT: " ++ message ++ " [" ++ toString now ++ "]")⟩) := by
  constructor
  · intro h
    have hd : validateMetadataSize metadata = false := by
      unfold validateMetadataSize
      simp
      omega
    unfold createCheckpoint
    simp [h1, h2, h3, h4, hd]
  · intro h
    have hd : validateMetadataSize metadata = true := by
      unfold validateMetadataSize
      simpa using h
    unfold createCheckpoint
    simp [h1, h2, h3, h4, hd]

/-- C8 witness: the empty object serializes to two bytes, stays under the
cap, and is attached unmodified by a fully successful environment. -/
theorem createCheckpoint_size_guard_witness :
    jsonByteSize (Json.obj []) ≤ 1024 * 1024
    ∧ (createCheckpoint ⟨true, true, true, some "abc"⟩ "m" (Json.obj []) 7).note
        = some (Json.obj []) := by
  have hs : Json.stringify (Json.obj []) = "\x7b\x7d" := by
    rw [Json.stringify, stringifyFields]
    rfl
  have hsize : jsonByteSize (Json.obj []) ≤ 1024 * 1024 := by
    unfold jsonByteSize
    rw [hs]
    decide
  refine ⟨hsize, ?_⟩
  rw [(createCheckpoint_size_guard ⟨true, true, true, some "abc"⟩ "m" (Json.obj []) 7
    "abc" rfl rfl rfl rfl).2 hsize]

/-- Default exclude patterns (config.ts, getDefaultConfig). -/
def defaultExcludePatterns : List String :=
  ["*.log", "node_modules/", ".env", "__pycache__/", "*.tmp", ".git/",
   "dist/", "build/", "coverage/", "*.swp", "*.swo", ".DS_Store", "Thumbs.db"]

/-- Single-segment glob match of one minimatch pattern component against one
path component, with dot:true (as the code always passes): a star matches any
run of characters including a leading dot, a question mark one character,
anything else literally.  The default exclude patterns use no other glob
syntax.  Fuel strictly exceeds the total length and is never exhausted. -/
def globMatchAux : Nat → List Char → List Char → Bool
  | 0, _, _ => false
  | fuel + 1, pat, s =>
      match pat, s with
      | [], [] => true
      | '*' :: ps, [] => globMatchAux fuel ps []
      | '*' :: ps, c :: cs =>
          globMatchAux fuel ps (c :: cs) || globMatchAux fuel ('*' :: ps) cs
      | '?' :: ps, _ :: cs => globMatchAux fuel ps cs
      | p :: ps, c :: cs => (p == c) && globMatchAux fuel ps cs
      | _, _ => false

def matchSeg (pat f : String) : Bool :=
  globMatchAux (pat.data.length + f.data.length + 1) pat.data f.data

/-- minimatch splits both pattern and tested path on runs of slashes (its
slashSplit regex is one-or-more slashes), keeping leading and trailing empty
segments.  Fuel strictly exceeds the length and is never exhausted. -/
def slashSplitAux : Nat → List Char → List Char → List String
  | 0, _, acc => [String.mk acc.reverse]
  | fuel + 1, chars, acc =>
      match chars with
      | [] => [String.mk acc.reverse]
      | '/' :: rest =>
          String.mk acc.reverse
            :: slashSplitAux fuel (rest.dropWhile (fun c => c == '/')) []
      | c :: rest => slashSplitAux fuel rest (c :: acc)

def slashSplit (s : String) : List String :=
  slashSplitAux (s.data.length + 1) s.data []

/-- minimatch matchOne with partial false: component-wise match, then its end
conditions — both exhausted is a hit; file exhausted with pattern left
returns the partial flag (false here); pattern exhausted with file left hits
only when the remaining file is the single empty segment of a trailing
slash. -/
def matchParts : List String → List String → Bool
  | [], [] => true
  | [f], [] => f == ""
  | _ :: _ :: _, [] => false
  | [], _ :: _ => false
  | f :: fs, p :: ps => matchSeg p f && matchParts fs ps

/-- The minimatch library (v3 through v10 agree on everything exercised here)
restricted to the feature subset of the default exclude patterns: no braces,
no globstar, no extglobs, no negation or comments, dot always true.  An empty
pattern matches only the empty string. -/
def minimatch (f pattern : String) : Bool :=
  if pattern == "" then f == ""
  else matchParts (slashSplit f) (slashSplit pattern)

/-- node path.isAbsolute on posix. -/
def isAbsolute (p : String) : Bool :=
  match p.data with
  | '/' :: _ => true
  | _ => false

/-- The plain split on path.sep used for the parent-directory walk inside
shouldExcludeFile (String.prototype.split with a plain separator, no run
collapsing). -/
def splitSepAux : List Char → List Char → List String
  | [], acc => [String.mk acc.reverse]
  | c :: rest, acc =>
      if c == '/' then String.mk acc.reverse :: splitSepAux rest []
      else splitSepAux rest (c :: acc)

def splitSep (s : String) : List String :=
  splitSepAux s.data []

/-- Array.prototype.join with path.sep. -/
def joinSep : List String → String
  | [] => ""
  | [x] => x
  | x :: xs => x ++ "/" ++ joinSep xs

/-- File-system facts consumed by shouldExcludeFile: path.relative from the
working directory for absolute inputs, fs.existsSync, and the stat size
(stat errors are out of the model; the code swallows them). -/
structure FsEnv where
  relToCwd : String → String
  fileExists : String → Bool
  fileSize : String → Nat

/-- CheckpointConfig.shouldExcludeFile (config.ts): try every exclude pattern
against the relative path and each of its parent sub-paths, then fall back to
the size cap for files that exist. -/
def shouldExcludeFile (patterns : List String) (maxFileSizeMb : Nat) (env : FsEnv)
    (filePath : String) : Bool :=
  let relativePath := if isAbsolute filePath then env.relToCwd filePath else filePath
  if patterns.any (fun pattern =>
      minimatch relativePath pattern
        || (let parts := splitSep relativePath
            (List.range parts.length).any (fun i =>
              minimatch (joinSep (parts.take (i + 1))) pattern)))
  then true
  else env.fileExists filePath
    && decide (maxFileSizeMb * 1024 * 1024 < env.fileSize filePath)

/-- No file exists on disk: the size check never fires. -/
def emptyFs : FsEnv := ⟨fun p => p, fun _ => false, fun _ => 0⟩

/-- Every path resolves to an existing 101 MiB file. -/
def bigFileFs : FsEnv := ⟨fun p => p, fun _ => true, fun _ => 101 * 1024 * 1024⟩

/-- C9: with the default patterns, shouldExcludeFile is true for "x.log" and
".env", false for "src/app.ts", and true for an oversized existing file of
any name — but false, not true, for "build/x.js": the trailing-slash pattern
"build/" splits into a trailing empty component that neither "build/x.js" nor
the parent walk's "build" can match under minimatch, so directory contents
are not excluded (the repository's own tests at config.test.ts expect true
for such paths). -/
theorem shouldExcludeFile_defaults :
    shouldExcludeFile defaultExcludePatterns 100 emptyFs "x.log" = true
    ∧ shouldExcludeFile defaultExcludePatterns 100 emptyFs ".env" = true
    ∧ shouldExcludeFile defaultExcludePatterns 100 emptyFs "src/app.ts" = false
    ∧ shouldExcludeFile defaultExcludePatterns 100 bigFileFs "huge.bin" = true
    ∧ shouldExcludeFile defaultExcludePatterns 100 emptyFs "build/x.js" = false := by
  refine ⟨?_, ?_, ?_, ?_, ?_⟩ <;> decide

end Ccheck
